import Mathlib

/-!
Verification of the prmt template parsing and rendering core.

The template language is rendered by a byte-oriented scanner
(src/parser.rs) producing literal-text and placeholder tokens, and an
executor (src/executor.rs) that resolves placeholders against named
module providers, decorates the values with prefix/suffix/style and
concatenates everything in token order, either sequentially or through
a parallel fan-out over per-token write-once slots.

The embedding below works on `List Char`.  The Rust code scans raw
UTF-8 bytes, but every delimiter it reacts to (`{`, `}`, `\`, `:`,
`.`, `+`, `#`) is ASCII, and ASCII bytes never occur inside a
multi-byte UTF-8 character, so the character-level scan produces the
same token decomposition and the same output text as the byte-level
one for every valid UTF-8 template.

Records and functions keep the source names.  The field names
`prefix_` and `suffix_` stand for the Rust fields `prefix` and
`suffix`, which are reserved words in Lean.
-/

namespace Prmt

/-- src/parser.rs `Params`: the parsed content of one placeholder. -/
structure Params where
  module : List Char
  style : List Char
  format : List Char
  prefix_ : List Char
  suffix_ : List Char
deriving DecidableEq, Repr

/-- src/parser.rs `Token`: a literal text span or a placeholder.  The
borrowed/owned `Cow` distinction only affects allocation, not the text
content, so it is dropped. -/
inductive Token where
  | text : List Char → Token
  | placeholder : Params → Token
deriving DecidableEq, Repr

/-- src/parser.rs `find_unescaped`: index of the first occurrence of
`target` from the scan position that is not preceded by a backslash;
a backslash makes the scan jump two bytes (skipping the escaped
character even when it is the target). -/
def find_unescaped (target : Char) : List Char → Option Nat
  | [] => none
  | c :: rest =>
    if c = '\\' then
      match rest with
      | [] => none
      | _ :: rest2 => (find_unescaped target rest2).map (· + 2)
    else if c = target then some 0
    else (find_unescaped target rest).map (· + 1)

/-- src/parser.rs `split_fields` inner loop: consume one field up to the
first unescaped `:` (backslash skips the next character), returning the
field text and the remainder after the colon, or `none` when no
unescaped colon exists. -/
def take_field : List Char → List Char × Option (List Char)
  | [] => ([], none)
  | c :: rest =>
    if c = '\\' then
      match rest with
      | [] => (['\\'], none)
      | d :: rest2 =>
        let (f, r) := take_field rest2
        ('\\' :: d :: f, r)
    else if c = ':' then ([], some rest)
    else
      let (f, r) := take_field rest
      (c :: f, r)

/-- src/parser.rs `split_fields`: split the placeholder body on
unescaped `:` into exactly five fields, stopping after the fourth
colon so the fifth field keeps any remaining colons verbatim; unfilled
trailing fields are empty. -/
def split_fields (s : List Char) : List (List Char) :=
  match take_field s with
  | (f0, none) => [f0, [], [], [], []]
  | (f0, some r1) =>
    match take_field r1 with
    | (f1, none) => [f0, f1, [], [], []]
    | (f1, some r2) =>
      match take_field r2 with
      | (f2, none) => [f0, f1, f2, [], []]
      | (f2, some r3) =>
        match take_field r3 with
        | (f3, none) => [f0, f1, f2, f3, []]
        | (f3, some r4) => [f0, f1, f2, f3, r4]

/-- src/parser.rs `unescape_if_needed` decode loop: the six escape
pairs decode to their literal character, an unknown escape keeps the
backslash and the following character, a trailing backslash stays. -/
def unescape : List Char → List Char
  | [] => []
  | c :: rest =>
    if c = '\\' then
      match rest with
      | [] => ['\\']
      | d :: rest2 =>
        if d = 'n' then '\n' :: unescape rest2
        else if d = 't' then '\t' :: unescape rest2
        else if d = '\\' then '\\' :: unescape rest2
        else if d = ':' then ':' :: unescape rest2
        else if d = '\x7b' then '\x7b' :: unescape rest2
        else if d = '\x7d' then '\x7d' :: unescape rest2
        else '\\' :: d :: unescape rest2
    else c :: unescape rest

/-- src/parser.rs `unescape_if_needed`: fields without a backslash are
returned as a borrowed slice, otherwise the decode loop runs. -/
def unescape_if_needed (s : List Char) : List Char :=
  if '\\' ∈ s then unescape s else s

/-- src/parser.rs `parse_placeholder`: split the body into five fields;
an empty module field rejects the placeholder, otherwise each field is
unescaped independently. -/
def parse_placeholder (content : List Char) : Option Params :=
  let fields := split_fields content
  if (fields.getD 0 []) = [] then none
  else some
    { module := unescape_if_needed (fields.getD 0 [])
      style := unescape_if_needed (fields.getD 1 [])
      format := unescape_if_needed (fields.getD 2 [])
      prefix_ := unescape_if_needed (fields.getD 3 [])
      suffix_ := unescape_if_needed (fields.getD 4 []) }

/-- src/parser.rs `memchr::memchr3(b'\x7b', b'\\', b'\x7d', ...)`:
split the input at the first occurrence of `\x7b`, `\` or `\x7d`,
returning the preceding text, the matched character and the rest. -/
def scan3 : List Char → Option (List Char × Char × List Char)
  | [] => none
  | c :: rest =>
    if c = '\x7b' ∨ c = '\\' ∨ c = '\x7d' then some ([], c, rest)
    else
      match scan3 rest with
      | none => none
      | some (pre, d, post) => some (c :: pre, d, post)

/-- The six recognized escapes: `n` and `t` decode to newline and tab,
the other four to themselves (src/parser.rs `next_token` escape arm). -/
def escape_char (d : Char) : Char :=
  if d = 'n' then '\n' else if d = 't' then '\t' else d

/-- src/parser.rs `Parser::next_token`: produce the next token and the
remaining input.  Text before the first special character is one
borrowed token; a backslash handles the six escapes or passes through;
a `\x7b` attempts a placeholder and degrades to a literal `\x7b` when
unclosed or when the body has an empty module; a stray `\x7d` is
literal text. -/
def handle_special (c : Char) (after : List Char) : Token × List Char :=
  if c = '\\' then
    match after with
    | [] => (Token.text ['\\'], [])
    | d :: rest =>
      if d = '\x7b' ∨ d = '\x7d' ∨ d = '\\' ∨ d = 'n' ∨ d = 't' ∨ d = ':' then
        (Token.text [escape_char d], rest)
      else
        (Token.text ['\\'], d :: rest)
  else if c = '\x7b' then
    match find_unescaped '\x7d' after with
    | some k =>
      match parse_placeholder (after.take k) with
      | some params => (Token.placeholder params, after.drop (k + 1))
      | none => (Token.text ['\x7b'], after)
    | none => (Token.text ['\x7b'], after)
  else
    (Token.text ['\x7d'], after)

def next_token (l : List Char) : Option (Token × List Char) :=
  match scan3 l with
  | none => if l = [] then none else some (Token.text l, [])
  | some (before, c, after) =>
    if before = [] then some (handle_special c after)
    else some (Token.text before, c :: after)

/-- src/parser.rs `Parser::parse` loop, fueled so that the kernel can
evaluate it; each step consumes at least one character, so
`length + 1` units of fuel always suffice. -/
def parse_go : Nat → List Char → List Token
  | 0, _ => []
  | fuel + 1, l =>
    match next_token l with
    | none => []
    | some (t, rest) => t :: parse_go fuel rest

/-- src/parser.rs `parse`: run the scanner over the whole template.
The capacity preallocation of the source affects only allocation, not
the token sequence, and is omitted. -/
def parse (s : List Char) : List Token := parse_go (s.length + 1) s

/-! ### Scanner infrastructure lemmas -/

theorem scan3_eq_append : ∀ {l bef aft : List Char} {c : Char},
    scan3 l = some (bef, c, aft) → l = bef ++ c :: aft := by
  intro l
  induction l with
  | nil => intro bef aft c h; simp [scan3] at h
  | cons x xs ih =>
    intro bef aft c h
    rw [scan3] at h
    split at h
    · simp only [Option.some.injEq, Prod.mk.injEq] at h
      obtain ⟨rfl, rfl, rfl⟩ := h
      rfl
    · rcases hs : scan3 xs with _ | ⟨pre, d, post⟩ <;> rw [hs] at h
      · simp at h
      · simp only [Option.some.injEq, Prod.mk.injEq] at h
        obtain ⟨rfl, rfl, rfl⟩ := h
        simpa using congrArg (x :: ·) (ih hs)

theorem scan3_none_of_plain {l : List Char}
    (h : ∀ c ∈ l, c ≠ '\x7b' ∧ c ≠ '\x7d' ∧ c ≠ '\\') : scan3 l = none := by
  induction l with
  | nil => rfl
  | cons x xs ih =>
    obtain ⟨h1, h2, h3⟩ := h x (List.mem_cons_self x xs)
    rw [scan3, if_neg (by tauto), ih (fun c hc => h c (List.mem_cons_of_mem x hc))]

theorem next_token_of_scan3_none {l : List Char} (hs : scan3 l = none) :
    next_token l = if l = [] then none else some (Token.text l, []) := by
  rw [next_token.eq_def, hs]

theorem next_token_of_scan3_some {l bef aft : List Char} {c : Char}
    (hs : scan3 l = some (bef, c, aft)) :
    next_token l =
      if bef = [] then some (handle_special c aft)
      else some (Token.text bef, c :: aft) := by
  rw [next_token.eq_def, hs]

theorem handle_special_snd_le (c : Char) (after : List Char) :
    (handle_special c after).2.length ≤ after.length := by
  rw [handle_special.eq_def]
  split
  · split
    · simp_all
    · split <;> simp
  · split
    · split
      · split
        · simp only [List.length_drop]
          omega
        · simp
      · simp
    · simp

theorem next_token_shrinks : ∀ {l rest : List Char} {t : Token},
    next_token l = some (t, rest) → rest.length < l.length := by
  intro l rest t h
  rcases hs : scan3 l with _ | ⟨bef, c, aft⟩
  · rw [next_token_of_scan3_none hs] at h
    by_cases hl : l = []
    · rw [if_pos hl] at h
      exact absurd h (by simp)
    · rw [if_neg hl] at h
      simp only [Option.some.injEq, Prod.mk.injEq] at h
      obtain ⟨-, rfl⟩ := h
      simpa using List.length_pos.mpr hl
  · rw [next_token_of_scan3_some hs] at h
    have hl : l = bef ++ c :: aft := scan3_eq_append hs
    subst hl
    simp only [List.length_append, List.length_cons]
    by_cases hbef : bef = []
    · rw [if_pos hbef] at h
      simp only [Option.some.injEq] at h
      have hle := handle_special_snd_le c aft
      have hrest : rest = (handle_special c aft).2 := by rw [h]
      have hlen : rest.length = (handle_special c aft).2.length :=
        congrArg List.length hrest
      subst hbef
      simp only [List.length_nil]
      omega
    · rw [if_neg hbef] at h
      simp only [Option.some.injEq, Prod.mk.injEq] at h
      obtain ⟨-, rfl⟩ := h
      have : 0 < bef.length := List.length_pos.mpr hbef
      simp only [List.length_cons]
      omega

theorem parse_go_congr : ∀ (f1 : Nat) {f2 : Nat} {l : List Char},
    l.length < f1 → l.length < f2 → parse_go f1 l = parse_go f2 l := by
  intro f1
  induction f1 with
  | zero => intro f2 l h1 h2; omega
  | succ n ih =>
    intro f2 l h1 h2
    rcases f2 with _ | m
    · omega
    · rw [parse_go, parse_go]
      rcases hnt : next_token l with _ | ⟨t, rest⟩
      · rfl
      · have hlt := next_token_shrinks hnt
        exact congrArg (t :: ·) (ih (by omega) (by omega))

/-- Peeling one token off the front of a parse. -/
theorem parse_eq_cons {l rest : List Char} {t : Token}
    (h : next_token l = some (t, rest)) : parse l = t :: parse rest := by
  rw [parse, parse_go, h]
  exact congrArg (t :: ·) (parse_go_congr _ (next_token_shrinks h) (Nat.lt_succ_self _))

theorem handle_special_backslash_cons (d : Char) (rest : List Char) :
    handle_special '\\' (d :: rest) =
      if d = '\x7b' ∨ d = '\x7d' ∨ d = '\\' ∨ d = 'n' ∨ d = 't' ∨ d = ':' then
        (Token.text [escape_char d], rest)
      else (Token.text ['\\'], d :: rest) := rfl

theorem unescape_backslash_cons (d : Char) (rest : List Char) :
    unescape ('\\' :: d :: rest) =
      if d = 'n' then '\n' :: unescape rest
      else if d = 't' then '\t' :: unescape rest
      else if d = '\\' then '\\' :: unescape rest
      else if d = ':' then ':' :: unescape rest
      else if d = '\x7b' then '\x7b' :: unescape rest
      else if d = '\x7d' then '\x7d' :: unescape rest
      else '\\' :: d :: unescape rest := rfl

theorem take_field_cons_plain {c : Char} (cs : List Char) (h1 : c ≠ '\\') (h2 : c ≠ ':') :
    take_field (c :: cs) = ((c :: (take_field cs).1), (take_field cs).2) := by
  rcases htf : take_field cs with ⟨f, r⟩
  rw [take_field.eq_def]
  simp only [htf, if_neg h1, if_neg h2]

theorem take_field_cons_colon (cs : List Char) :
    take_field (':' :: cs) = ([], some cs) := by
  rw [take_field.eq_def]
  simp

theorem take_field_cons_backslash (d : Char) (cs : List Char) :
    take_field ('\\' :: d :: cs) =
      ('\\' :: d :: (take_field cs).1, (take_field cs).2) := by
  rcases htf : take_field cs with ⟨f, r⟩
  rw [take_field.eq_def]
  simp [htf]

/-- A field text inside which the src/parser.rs `split_fields` scan
finds no unescaped colon: scanning with its skip-two escape rule, no
`:` is ever hit in an unescaped position and the text does not end in
a dangling backslash (which would escape the following separator).
Escaped `\:` pairs inside the field are allowed. -/
def field_ok : List Char → Bool
  | [] => true
  | c :: rest =>
    if c = '\\' then
      match rest with
      | [] => false
      | _ :: rest2 => field_ok rest2
    else if c = ':' then false
    else field_ok rest

theorem field_ok_cons_backslash (d : Char) (rest2 : List Char) :
    field_ok ('\\' :: d :: rest2) = field_ok rest2 := rfl

theorem field_ok_cons_plain {c : Char} (rest : List Char) (h1 : c ≠ '\\')
    (h2 : c ≠ ':') : field_ok (c :: rest) = field_ok rest := by
  rw [field_ok.eq_def]
  simp [h1, h2]

/-- On a body `m ++ ':' ++ t` whose head field has no unescaped colon,
the scan consumes exactly `m` and splits at that separator colon, even
when `m` contains escaped `\:` pairs. -/
theorem take_field_append_of_field_ok :
    ∀ (n : Nat) (m t : List Char), m.length ≤ n → field_ok m = true →
      take_field (m ++ ':' :: t) = (m, some t) := by
  intro n
  induction n with
  | zero =>
    intro m t hlen h
    have hm : m = [] := List.length_eq_zero.mp (Nat.le_zero.mp hlen)
    subst hm
    simpa using take_field_cons_colon t
  | succ k ih =>
    intro m t hlen h
    rcases m with _ | ⟨c, rest⟩
    · simpa using take_field_cons_colon t
    · by_cases hc : c = '\\'
      · subst hc
        rcases rest with _ | ⟨d, rest2⟩
        · exact absurd h (by decide)
        · rw [field_ok_cons_backslash] at h
          rw [List.cons_append, List.cons_append, take_field_cons_backslash,
            ih rest2 t (by simp at hlen ⊢; omega) h]
      · by_cases hcol : c = ':'
        · subst hcol
          rw [field_ok.eq_def] at h
          simp at h
        · rw [field_ok_cons_plain rest hc hcol] at h
          rw [List.cons_append, take_field_cons_plain _ hc hcol,
            ih rest t (by simp at hlen ⊢; omega) h]

/-- A final field with no unescaped colon is consumed whole. -/
theorem take_field_whole_of_field_ok :
    ∀ (n : Nat) (m : List Char), m.length ≤ n → field_ok m = true →
      take_field m = (m, none) := by
  intro n
  induction n with
  | zero =>
    intro m hlen h
    have hm : m = [] := List.length_eq_zero.mp (Nat.le_zero.mp hlen)
    subst hm
    rfl
  | succ k ih =>
    intro m hlen h
    rcases m with _ | ⟨c, rest⟩
    · rfl
    · by_cases hc : c = '\\'
      · subst hc
        rcases rest with _ | ⟨d, rest2⟩
        · exact absurd h (by decide)
        · rw [field_ok_cons_backslash] at h
          rw [take_field_cons_backslash, ih rest2 (by simp at hlen ⊢; omega) h]
      · by_cases hcol : c = ':'
        · subst hcol
          rw [field_ok.eq_def] at h
          simp at h
        · rw [field_ok_cons_plain rest hc hcol] at h
          rw [take_field_cons_plain _ hc hcol, ih rest (by simp at hlen ⊢; omega) h]

theorem take_field_append_ok {m : List Char} (h : field_ok m = true)
    (t : List Char) : take_field (m ++ ':' :: t) = (m, some t) :=
  take_field_append_of_field_ok m.length m t le_rfl h

theorem take_field_whole_ok {m : List Char} (h : field_ok m = true) :
    take_field m = (m, none) :=
  take_field_whole_of_field_ok m.length m le_rfl h

/-! ### Claims about the parser -/

/-- C8 (counterexample): the claim "every template without `\x7b` parses
to exactly one text token equal to the input" fails on the code: the
empty template parses to no token at all, and a `\x7d` or a `\` inside
the template splits the scan into several text tokens. -/
theorem parse_no_brace_single_token_cex :
    parse [] = [] ∧
    (parse "a\x7db".data).length = 3 ∧
    (parse "a\\tb".data).length = 3 := by
  refine ⟨rfl, by decide, by decide⟩

/-- C8 (amended): every nonempty template containing none of `\x7b`,
`\x7d`, `\` parses to exactly one text token whose content equals the
input. -/
theorem parse_plain_text_single_token (s : List Char) (hne : s ≠ [])
    (h : ∀ c ∈ s, c ≠ '\x7b' ∧ c ≠ '\x7d' ∧ c ≠ '\\') :
    parse s = [Token.text s] := by
  have hs : scan3 s = none := scan3_none_of_plain h
  have hnt : next_token s = some (Token.text s, []) := by
    rw [next_token_of_scan3_none hs, if_neg hne]
  rw [parse_eq_cons hnt]
  rfl

/-- C8 (witness): a concrete plain template. -/
theorem parse_plain_text_single_token_witness :
    parse "Hello, World!".data = [Token.text "Hello, World!".data] :=
  parse_plain_text_single_token "Hello, World!".data (by decide) (by decide)

/-- C3: whenever the scanner sits on a `\x7b` that has no matching
unescaped `\x7d`, or whose brace interior fails to produce a non-empty
module name, the `\x7b` is emitted as one literal-text token and
scanning resumes one character later, so the rest of the input
(including the eventual `\x7d`) is parsed as ordinary input and no
character is dropped; parsing is total, so no error is ever returned.
Second conjunct: the brace interior is rejected exactly when its first
split field, the module name, is empty. -/
theorem malformed_placeholder_degrades_to_literal (rest : List Char)
    (h : ∀ k, find_unescaped '\x7d' rest = some k →
      parse_placeholder (rest.take k) = none) :
    parse ('\x7b' :: rest) = Token.text ['\x7b'] :: parse rest ∧
    (∀ content, parse_placeholder content = none ↔
      (split_fields content).getD 0 [] = []) := by
  constructor
  · have hs : scan3 ('\x7b' :: rest) = some ([], '\x7b', rest) := rfl
    have hh : handle_special '\x7b' rest = (Token.text ['\x7b'], rest) := by
      rw [handle_special.eq_def]
      rw [if_neg (by decide), if_pos rfl]
      rcases hf : find_unescaped '\x7d' rest with _ | k
      · rfl
      · simp only [h k hf]
    have hnt : next_token ('\x7b' :: rest) = some (Token.text ['\x7b'], rest) := by
      rw [next_token_of_scan3_some hs, if_pos rfl, hh]
    exact parse_eq_cons hnt
  · intro content
    by_cases hc : (split_fields content).getD 0 [] = []
    · simp [parse_placeholder, hc]
    · simp [parse_placeholder, hc]

/-- C3 (witness): `\x7b\x7d` has an empty module name, so the open
brace becomes literal text and the close brace is parsed as ordinary
text. -/
theorem malformed_placeholder_degrades_to_literal_witness :
    parse ['\x7b', '\x7d'] = [Token.text ['\x7b'], Token.text ['\x7d']] := by
  have h := (malformed_placeholder_degrades_to_literal ['\x7d']
    (by
      intro k hk
      have h0 : find_unescaped '\x7d' ['\x7d'] = some 0 := rfl
      rw [h0] at hk
      injection hk with hk0
      subst hk0
      decide)).1
  rw [h]
  rfl

/-- C4: each of the six escape pairs decodes to its single-character
literal both in top-level text (a one-character text token, scanning
resuming after the pair) and inside placeholder fields (the field
unescaper); a backslash followed by end of input, or by any byte
outside the six, decodes to a literal backslash with the following
byte passed through rather than swallowed. -/
theorem escape_pairs_decode :
    (∀ d ∈ ['\x7b', '\x7d', '\\', 'n', 't', ':'], ∀ rest : List Char,
      parse ('\\' :: d :: rest) = Token.text [escape_char d] :: parse rest ∧
      unescape ('\\' :: d :: rest) = escape_char d :: unescape rest) ∧
    (∀ d : Char, d ∉ ['\x7b', '\x7d', '\\', 'n', 't', ':'] → ∀ rest : List Char,
      parse ('\\' :: d :: rest) = Token.text ['\\'] :: parse (d :: rest) ∧
      unescape ('\\' :: d :: rest) = '\\' :: d :: unescape rest) ∧
    parse ['\\'] = [Token.text ['\\']] ∧
    unescape ['\\'] = ['\\'] := by
  refine ⟨?_, ?_, by decide, rfl⟩
  · intro d hd rest
    fin_cases hd <;> exact ⟨parse_eq_cons rfl, rfl⟩
  · intro d hd rest
    simp only [List.mem_cons, List.not_mem_nil, or_false, not_or] at hd
    obtain ⟨h1, h2, h3, h4, h5, h6⟩ := hd
    constructor
    · apply parse_eq_cons
      have hnt : next_token ('\\' :: d :: rest) = some (handle_special '\\' (d :: rest)) := rfl
      rw [hnt, handle_special_backslash_cons, if_neg (by tauto)]
    · rw [unescape_backslash_cons, if_neg h4, if_neg h5, if_neg h3, if_neg h6,
        if_neg h1, if_neg h2]

/-- C4 (witness): `\n` decodes to a newline text token in top-level
text and inside a field. -/
theorem escape_pairs_decode_witness :
    parse ['\\', 'n', 'a'] = [Token.text ['\n'], Token.text ['a']] ∧
    unescape ['\\', 'n', 'a'] = ['\n', 'a'] := by
  have h := escape_pairs_decode.1 'n' (by decide) ['a']
  exact ⟨h.1.trans rfl, h.2.trans rfl⟩

/-- C5: the placeholder body is split on unescaped `:` into exactly
five ordered fields, scanning left to right: a colon protected by a
backslash escape does not split (the `field_ok` hypotheses allow
escaped `\:` pairs inside every specified field, so the separating
colons really are the unescaped ones); splitting stops after the
fourth colon so that the suffix field keeps any further colons,
escaped or not, verbatim; and for bodies specifying one, two, three,
four or five fields every trailing unspecified field is the empty
string. -/
theorem split_fields_spec :
    (∀ s : List Char, (split_fields s).length = 5) ∧
    (∀ m : List Char, field_ok m = true →
      split_fields m = [m, [], [], [], []]) ∧
    (∀ m s : List Char, field_ok m = true → field_ok s = true →
      split_fields (m ++ ':' :: s) = [m, s, [], [], []]) ∧
    (∀ m s f : List Char, field_ok m = true → field_ok s = true →
      field_ok f = true →
      split_fields (m ++ ':' :: (s ++ ':' :: f)) = [m, s, f, [], []]) ∧
    (∀ m s f p : List Char, field_ok m = true → field_ok s = true →
      field_ok f = true → field_ok p = true →
      split_fields (m ++ ':' :: (s ++ ':' :: (f ++ ':' :: p))) =
        [m, s, f, p, []]) ∧
    (∀ m s f p q : List Char, field_ok m = true → field_ok s = true →
      field_ok f = true → field_ok p = true →
      split_fields (m ++ ':' :: (s ++ ':' :: (f ++ ':' :: (p ++ ':' :: q)))) =
        [m, s, f, p, q]) := by
  refine ⟨?_, ?_, ?_, ?_, ?_, ?_⟩
  · intro s
    rw [split_fields.eq_def]
    split
    · rfl
    · split
      · rfl
      · split
        · rfl
        · split <;> rfl
  · intro m hm
    rw [split_fields.eq_def, take_field_whole_ok hm]
  · intro m s hm hs
    rw [split_fields.eq_def, take_field_append_ok hm]
    simp only [take_field_whole_ok hs]
  · intro m s f hm hs hf
    rw [split_fields.eq_def, take_field_append_ok hm]
    simp only [take_field_append_ok hs, take_field_whole_ok hf]
  · intro m s f p hm hs hf hp
    rw [split_fields.eq_def, take_field_append_ok hm]
    simp only [take_field_append_ok hs, take_field_append_ok hf,
      take_field_whole_ok hp]
  · intro m s f p q hm hs hf hp
    rw [split_fields.eq_def, take_field_append_ok hm]
    simp only [take_field_append_ok hs, take_field_append_ok hf,
      take_field_append_ok hp]

/-- C5 (witness): a three-field body whose module field contains an
escaped colon that does not split, and a five-colon body keeping the
colon in the suffix verbatim. -/
theorem split_fields_spec_witness :
    split_fields "pre\\:fix:cyan:short".data =
      ["pre\\:fix".data, "cyan".data, "short".data, [], []] ∧
    split_fields "path:cyan:short:[:a:b".data =
      ["path".data, "cyan".data, "short".data, "[".data, "a:b".data] :=
  ⟨split_fields_spec.2.2.2.1 "pre\\:fix".data "cyan".data "short".data
      (by decide) (by decide) (by decide),
    split_fields_spec.2.2.2.2.2 "path".data "cyan".data "short".data "[".data
      "a:b".data (by decide) (by decide) (by decide) (by decide)⟩

/-! ### Style engine (src/style.rs) -/

/-- src/style.rs `Shell`: which shell's zero-width delimiters wrap the
escape sequences. -/
inductive Shell where
  | none | zsh | bash
deriving DecidableEq, Repr

/-- src/style.rs `Shell::delimiters`. -/
def Shell.delimiters : Shell → List Char × List Char
  | Shell.zsh => ("%\x7b".data, "%\x7d".data)
  | Shell.bash => ("\x01".data, "\x02".data)
  | Shell.none => ([], [])

/-- src/style.rs `Color`. -/
inductive Color where
  | black | red | green | yellow | blue | purple | cyan | white
  | hex : List Char → Color
deriving DecidableEq, Repr

/-- src/style.rs `parse_color`: named colors, `magenta` as an alias of
purple, a leading `#` keeps the raw hex text (validated only when the
code is emitted), anything else is an error. -/
def parse_color (value : List Char) : Except (List Char) Color :=
  if value = "black".data then .ok Color.black
  else if value = "red".data then .ok Color.red
  else if value = "green".data then .ok Color.green
  else if value = "yellow".data then .ok Color.yellow
  else if value = "blue".data then .ok Color.blue
  else if value = "purple".data ∨ value = "magenta".data then .ok Color.purple
  else if value = "cyan".data then .ok Color.cyan
  else if value = "white".data then .ok Color.white
  else if value.head? = some '#' then .ok (Color.hex value)
  else .error ("Unknown style component: ".data ++ value)

def hex_digit_val (c : Char) : Option Nat :=
  if '0' ≤ c ∧ c ≤ '9' then some (c.toNat - 48)
  else if 'a' ≤ c ∧ c ≤ 'f' then some (c.toNat - 87)
  else if 'A' ≤ c ∧ c ≤ 'F' then some (c.toNat - 55)
  else none

def hex_digits_val (l : List Char) : Option Nat :=
  l.foldl (fun acc c =>
    match acc, hex_digit_val c with
    | some a, some d => some (a * 16 + d)
    | _, _ => none) (some 0)

/-- Models Rust `u8::from_str_radix(s, 16)`: an optional leading sign
(`+` keeps the value, `-` only accepts zero for an unsigned target),
then a nonempty run of hex digits whose value must fit in a byte. -/
def u8_from_hex (s : List Char) : Option Nat :=
  match s with
  | '+' :: rest =>
    if rest = [] then none
    else (hex_digits_val rest).bind (fun v => if v ≤ 255 then some v else none)
  | '-' :: rest =>
    if rest = [] then none
    else (hex_digits_val rest).bind (fun v => if v = 0 then some 0 else none)
  | _ =>
    if s = [] then none
    else (hex_digits_val s).bind (fun v => if v ≤ 255 then some v else none)

/-- src/style.rs `parse_hex_color`: strip every leading `#`, require
exactly six remaining characters, parse three byte values. -/
def parse_hex_color (hex0 : List Char) : Except (List Char) (Nat × Nat × Nat) :=
  let hx := hex0.dropWhile (· = '#')
  if hx.length ≠ 6 then .error ("Invalid hex color: ".data ++ hx)
  else
    match u8_from_hex (hx.take 2), u8_from_hex ((hx.drop 2).take 2),
        u8_from_hex ((hx.drop 4).take 2) with
    | some r, some g, some b => .ok (r, g, b)
    | _, _, _ => .error ("Invalid hex color: ".data ++ hx)

/-- src/style.rs `Color::push_ansi_code` (foreground); an invalid hex
color silently contributes nothing. -/
def Color.ansi_code : Color → List Char
  | Color.black => "\x1b[30m".data
  | Color.red => "\x1b[31m".data
  | Color.green => "\x1b[32m".data
  | Color.yellow => "\x1b[33m".data
  | Color.blue => "\x1b[34m".data
  | Color.purple => "\x1b[35m".data
  | Color.cyan => "\x1b[36m".data
  | Color.white => "\x1b[37m".data
  | Color.hex h =>
    match parse_hex_color h with
    | .ok (r, g, b) =>
      "\x1b[38;2;".data ++ (Nat.repr r).data ++ [';'] ++ (Nat.repr g).data ++
        [';'] ++ (Nat.repr b).data ++ ['m']
    | .error _ => []

/-- src/style.rs `Color::push_ansi_bg_code` (background). -/
def Color.ansi_bg_code : Color → List Char
  | Color.black => "\x1b[40m".data
  | Color.red => "\x1b[41m".data
  | Color.green => "\x1b[42m".data
  | Color.yellow => "\x1b[43m".data
  | Color.blue => "\x1b[44m".data
  | Color.purple => "\x1b[45m".data
  | Color.cyan => "\x1b[46m".data
  | Color.white => "\x1b[47m".data
  | Color.hex h =>
    match parse_hex_color h with
    | .ok (r, g, b) =>
      "\x1b[48;2;".data ++ (Nat.repr r).data ++ [';'] ++ (Nat.repr g).data ++
        [';'] ++ (Nat.repr b).data ++ ['m']
    | .error _ => []

/-- src/style.rs `AnsiStyle`. -/
structure AnsiStyle where
  color : Option Color := none
  background : Option Color := none
  bold : Bool := false
  italic : Bool := false
  underline : Bool := false
  dim : Bool := false
  reverse : Bool := false
  strikethrough : Bool := false
deriving DecidableEq, Repr

/-- Rust `str::split('.')`: split on every dot, keeping empty parts. -/
def split_dot : List Char → List (List Char)
  | [] => [[]]
  | c :: rest =>
    if c = '.' then [] :: split_dot rest
    else
      match split_dot rest with
      | [] => [[c]]
      | f :: fs => (c :: f) :: fs

/-- One iteration of the `AnsiStyle::parse` loop over dot-separated
components: attribute keywords set flags, a component containing `+`
is a foreground+background pair (an empty foreground leaves the color
alone, an empty background is an error), anything else is a foreground
color. -/
def apply_style_part (style : AnsiStyle) (part : List Char) :
    Except (List Char) AnsiStyle :=
  if part = "bold".data then .ok { style with bold := true }
  else if part = "italic".data then .ok { style with italic := true }
  else if part = "underline".data then .ok { style with underline := true }
  else if part = "dim".data then .ok { style with dim := true }
  else if part = "reverse".data then .ok { style with reverse := true }
  else if part = "strikethrough".data then .ok { style with strikethrough := true }
  else if '+' ∈ part then
    let fg := part.takeWhile (· ≠ '+')
    let bg := (part.dropWhile (· ≠ '+')).drop 1
    match (if fg = [] then Except.ok style
      else (parse_color fg).map (fun c => { style with color := some c })) with
    | .error e => .error e
    | .ok style1 =>
      if bg = [] then .error ("Unknown style component: ".data ++ part)
      else (parse_color bg).map (fun c => { style1 with background := some c })
  else (parse_color part).map (fun c => { style with color := some c })

/-- src/style.rs `AnsiStyle::parse`: empty descriptor is the default
style; otherwise fold the components left to right, stopping at the
first error. -/
def AnsiStyle.parse (style_str : List Char) : Except (List Char) AnsiStyle :=
  if style_str = [] then .ok {}
  else (split_dot style_str).foldlM apply_style_part {}

def AnsiStyle.has_style (s : AnsiStyle) : Bool :=
  s.color.isSome || s.background.isSome || s.bold || s.italic || s.underline ||
    s.dim || s.reverse || s.strikethrough

/-- src/style.rs `AnsiStyle::write_raw_codes` in source emission
order: foreground, background, bold, dim, italic, underline, reverse,
strikethrough. -/
def AnsiStyle.write_raw_codes (s : AnsiStyle) : List Char :=
  (match s.color with | some c => c.ansi_code | none => []) ++
  (match s.background with | some c => c.ansi_bg_code | none => []) ++
  (if s.bold then "\x1b[1m".data else []) ++
  (if s.dim then "\x1b[2m".data else []) ++
  (if s.italic then "\x1b[3m".data else []) ++
  (if s.underline then "\x1b[4m".data else []) ++
  (if s.reverse then "\x1b[7m".data else []) ++
  (if s.strikethrough then "\x1b[9m".data else [])

def AnsiStyle.write_start_codes (s : AnsiStyle) (shell : Shell) : List Char :=
  if s.has_style = false then []
  else if shell = Shell.none then s.write_raw_codes
  else (shell.delimiters).1 ++ s.write_raw_codes ++ (shell.delimiters).2

def AnsiStyle.write_reset (s : AnsiStyle) (shell : Shell) : List Char :=
  if s.has_style = false then []
  else if shell = Shell.none then "\x1b[0m".data
  else (shell.delimiters).1 ++ "\x1b[0m".data ++ (shell.delimiters).2

/-- src/style.rs `AnsiStyle::apply_with_shell`: a style with nothing
set leaves the text untouched, otherwise the segment is wrapped in
start codes and the reset code. -/
def AnsiStyle.apply_with_shell (s : AnsiStyle) (text : List Char) (shell : Shell) :
    List Char :=
  if s.has_style = false then text
  else s.write_start_codes shell ++ text ++ s.write_reset shell

def AnsiStyle.apply (s : AnsiStyle) (text : List Char) : List Char :=
  s.apply_with_shell text Shell.none

/-! ### Modules, registry and executor
(src/error.rs, src/module_trait.rs, src/registry.rs, src/executor.rs) -/

/-- Decidable equality of fallible results, used to evaluate the
executor on concrete inputs. -/
instance {ε α : Type} [DecidableEq ε] [DecidableEq α] : DecidableEq (Except ε α) := fun a b =>
  match a, b with
  | Except.ok x, Except.ok y =>
    if h : x = y then isTrue (by rw [h])
    else isFalse (by intro hh; injection hh with h2; exact h h2)
  | Except.error x, Except.error y =>
    if h : x = y then isTrue (by rw [h])
    else isFalse (by intro hh; injection hh with h2; exact h h2)
  | Except.ok _, Except.error _ => isFalse (by intro hh; exact Except.noConfusion hh)
  | Except.error _, Except.ok _ => isFalse (by intro hh; exact Except.noConfusion hh)

/-- src/error.rs `PromptError`.  The payloads of the I/O and UTF-8
variants are reduced to their message text. -/
inductive PromptError where
  | unknownModule : List Char → PromptError
  | styleError : List Char → List Char → PromptError
  | invalidFormat : List Char → List Char → List Char → PromptError
  | ioError : List Char → PromptError
  | utf8Error : List Char → PromptError
deriving DecidableEq, Repr

/-- src/detector.rs `DetectionContext`, modelled as the lookup it
provides: marker name to the path where it was found, if any.  The
directory walk itself is filesystem I/O and enters the embedding only
as an oracle parameter. -/
def DetectionContext := List Char → Option (List Char)

/-- src/module_trait.rs `ModuleContext` as constructed by
src/executor.rs `execute_with_shell` (the executor is the current
variant; the snapshot of module_trait.rs lags behind it and lacks the
`shell` field the executor initializes). -/
structure ModuleContext where
  no_version : Bool
  exit_code : Option Int
  detection : DetectionContext
  shell : Shell

/-- src/module_trait.rs `Module` trait object: a render function plus
declared filesystem markers. -/
structure Module where
  fs_markers : List (List Char)
  render : List Char → ModuleContext → Except PromptError (Option (List Char))

/-- src/registry.rs `ModuleRegistry`, as an association list. -/
abbrev ModuleRegistry := List (List Char × Module)

/-- src/registry.rs `ModuleRegistry::get`. -/
def ModuleRegistry.get : ModuleRegistry → List Char → Option Module
  | [], _ => none
  | (n, m) :: rest, name => if name = n then some m else ModuleRegistry.get rest name

/-- src/registry.rs `ModuleRegistry::register`: a `HashMap::insert`,
so a new binding replaces an existing one with the same name. -/
def ModuleRegistry.register (r : ModuleRegistry) (name : List Char) (m : Module) :
    ModuleRegistry :=
  (name, m) :: r.filter (fun e => decide (e.1 ≠ name))

/-- src/registry.rs `ModuleRegistry::required_markers`: the union of
every registered module's markers.  The hash-set iteration order of
the source is unspecified; this model fixes first-seen order, and the
executor only consumes whether the set is empty. -/
def ModuleRegistry.required_markers (r : ModuleRegistry) : List (List Char) :=
  r.foldl (fun acc e =>
    e.2.fs_markers.foldl (fun a mk => if mk ∈ a then a else a ++ [mk]) acc) []

/-- src/executor.rs `render_placeholder`: ask the module for a value;
absence, or an empty value with empty prefix and suffix, contributes
nothing; otherwise build prefix+value+suffix as one segment and, when
the style field is non-empty and color is enabled, parse the style
descriptor (a parse failure is a StyleError naming the module) and
wrap the whole segment. -/
def render_placeholder (module : Module) (params : Params)
    (context : ModuleContext) (no_color : Bool) :
    Except PromptError (Option (List Char)) :=
  match module.render params.format context with
  | .error e => .error e
  | .ok none => .ok none
  | .ok (some text) =>
    if text = [] ∧ params.prefix_ = [] ∧ params.suffix_ = [] then .ok none
    else
      let segment := params.prefix_ ++ text ++ params.suffix_
      if params.style = [] ∨ no_color = true then .ok (some segment)
      else
        match AnsiStyle.parse params.style with
        | .error error => .error (PromptError.styleError params.module error)
        | .ok style => .ok (some (style.apply_with_shell segment context.shell))

/-- src/executor.rs `render_tokens_sequential`: walk tokens in order,
appending text tokens and resolved placeholder values to the output;
an unknown module or a placeholder error aborts at the first failure.
The `template_len` parameter only sizes the output buffer in the
source. -/
def render_tokens_sequential (registry : ModuleRegistry) (context : ModuleContext)
    (no_color : Bool) (template_len : Nat) :
    List Token → Except PromptError (List Char)
  | [] => .ok []
  | Token.text t :: rest =>
    match render_tokens_sequential registry context no_color template_len rest with
    | .error e => .error e
    | .ok out => .ok (t ++ out)
  | Token.placeholder p :: rest =>
    match registry.get p.module with
    | none => .error (PromptError.unknownModule p.module)
    | some m =>
      match render_placeholder m p context no_color with
      | .error e => .error e
      | .ok v =>
        match render_tokens_sequential registry context no_color template_len rest with
        | .error e => .error e
        | .ok out => .ok (v.getD [] ++ out)

/-- src/executor.rs `RenderSlot`: static text, or a pending
placeholder with its resolved module.  The write-once `OnceLock`
output cell is modelled by `compute_slot` returning the value. -/
inductive RenderSlot where
  | static : List Char → RenderSlot
  | dynamic : Params → Module → RenderSlot

/-- First pass of src/executor.rs `render_tokens_parallel`: build the
slot array, resolving every placeholder's module up front; the first
unknown module aborts. -/
def build_slots (registry : ModuleRegistry) : List Token →
    Except PromptError (List RenderSlot)
  | [] => .ok []
  | Token.text t :: rest =>
    match build_slots registry rest with
    | .error e => .error e
    | .ok slots => .ok (RenderSlot.static t :: slots)
  | Token.placeholder p :: rest =>
    match registry.get p.module with
    | none => .error (PromptError.unknownModule p.module)
    | some m =>
      match build_slots registry rest with
      | .error e => .error e
      | .ok slots => .ok (RenderSlot.dynamic p m :: slots)

/-- src/executor.rs `compute_slot` plus the assembly read: a static
slot contributes its text, a dynamic slot the placeholder value (empty
when the placeholder contributed nothing).  The value of a slot is a
pure function of the slot, the shared context and the color flag, so
it does not depend on which worker computes it or when. -/
def compute_slot (context : ModuleContext) (no_color : Bool) :
    RenderSlot → Except PromptError (List Char)
  | RenderSlot.static t => .ok t
  | RenderSlot.dynamic p m =>
    match render_placeholder m p context no_color with
    | .error e => .error e
    | .ok v => .ok (v.getD [])

/-- The `par_iter().try_for_each(compute_slot)` phase of
src/executor.rs `render_tokens_parallel`, collecting each slot's value
(the content of its write-once cell after the join).  Each slot's
value is a pure function of the slot, so the collected values do not
depend on worker scheduling; only which of several errors is reported
does, and this model commits to the first in slot order. -/
def compute_slots (context : ModuleContext) (no_color : Bool) :
    List RenderSlot → Except PromptError (List (List Char))
  | [] => .ok []
  | slot :: rest =>
    match compute_slot context no_color slot with
    | .error e => .error e
    | .ok v =>
      match compute_slots context no_color rest with
      | .error e => .error e
      | .ok vs => .ok (v :: vs)

/-- src/executor.rs `render_tokens_parallel`: build slots, compute
every dynamic slot (in the source: fanned out over a worker pool with
each result written once into its slot's cell, unless at most one
slot is dynamic, in which case it is computed inline — both cases
compute every slot's value exactly once), then concatenate the slot
values in original slot order. -/
def render_tokens_parallel (tokens : List Token) (registry : ModuleRegistry)
    (context : ModuleContext) (no_color : Bool) :
    Except PromptError (List Char) :=
  match build_slots registry tokens with
  | .error e => .error e
  | .ok slots =>
    match compute_slots context no_color slots with
    | .error e => .error e
    | .ok values => .ok values.flatten

/-- src/executor.rs `count_placeholders`. -/
def count_placeholders (tokens : List Token) : Nat :=
  (tokens.filter (fun t => match t with
    | Token.placeholder _ => true
    | _ => false)).length

/-- src/executor.rs `render_tokens`: at most one placeholder renders
sequentially, otherwise through the parallel slot path. -/
def render_tokens (tokens : List Token) (registry : ModuleRegistry)
    (context : ModuleContext) (no_color : Bool) (template_len : Nat)
    (placeholder_count : Nat) : Except PromptError (List Char) :=
  if placeholder_count ≤ 1 then
    render_tokens_sequential registry context no_color template_len tokens
  else
    render_tokens_parallel tokens registry context no_color

/-- src/executor.rs `build_registry` loop: count placeholders, and for
each first occurrence of a module name instantiate it (an unresolvable
name is an UnknownModule error) and register it. -/
def build_registry_go (inst : List Char → Option Module) :
    List Token → ModuleRegistry → List (List Char) → Nat →
    Except PromptError (ModuleRegistry × Nat)
  | [], registry, _, count => .ok (registry, count)
  | Token.text _ :: rest, registry, required, count =>
    build_registry_go inst rest registry required count
  | Token.placeholder p :: rest, registry, required, count =>
    if p.module ∈ required then
      build_registry_go inst rest registry required (count + 1)
    else
      match inst p.module with
      | none => .error (PromptError.unknownModule p.module)
      | some m =>
        build_registry_go inst rest (registry.register p.module m)
          (p.module :: required) (count + 1)

/-- src/executor.rs `build_registry`, parameterized by the module
instantiation function (`instantiate_module` in the source). -/
def build_registry (inst : List Char → Option Module) (tokens : List Token) :
    Except PromptError (ModuleRegistry × Nat) :=
  build_registry_go inst tokens [] [] 0

/-- src/executor.rs `execute_with_shell`, parameterized by the module
instantiation function, the filesystem detection oracle (src/detector.rs
`detect`, pure I/O) and the cached NO_COLOR environment flag
(src/style.rs `global_no_color`): parse, build the registry from the
modules actually referenced, gather markers once (skipped when no
module needs any), build the shared context, render. -/
def execute_with_shell (inst : List Char → Option Module)
    (det : List (List Char) → DetectionContext) (global_no_color : Bool)
    (format_str : List Char) (no_version : Bool) (exit_code : Option Int)
    (no_color : Bool) (shell : Shell) : Except PromptError (List Char) :=
  let tokens := parse format_str
  match build_registry inst tokens with
  | .error e => .error e
  | .ok (registry, placeholder_count) =>
    let required := registry.required_markers
    let detection : DetectionContext :=
      if required = [] then (fun _ => none) else det required
    let context : ModuleContext :=
      ⟨no_version, exit_code, detection, shell⟩
    let resolved_no_color := no_color || global_no_color
    render_tokens tokens registry context resolved_no_color
      format_str.length placeholder_count

/-- src/executor.rs `execute`. -/
def execute (inst : List Char → Option Module)
    (det : List (List Char) → DetectionContext) (global_no_color : Bool)
    (format_str : List Char) (no_version : Bool) (exit_code : Option Int)
    (no_color : Bool) : Except PromptError (List Char) :=
  execute_with_shell inst det global_no_color format_str no_version exit_code
    no_color Shell.none

/-- Decimal digit. -/
def nat_digit_char (d : Nat) : Char := Char.ofNat (48 + d)

/-- Decimal rendering of a natural number, most significant digit
first; the fuel argument exceeds the digit count. -/
def nat_to_chars_go : Nat → Nat → List Char → List Char
  | 0, _, acc => acc
  | fuel + 1, n, acc =>
    if n < 10 then nat_digit_char n :: acc
    else nat_to_chars_go fuel (n / 10) (nat_digit_char (n % 10) :: acc)

def nat_to_chars (n : Nat) : List Char := nat_to_chars_go (n + 1) n []

/-- Decimal rendering of an i32 (Rust `i32::to_string`), for the fail
module's `code` format. -/
def int_to_chars (i : Int) : List Char :=
  if i < 0 then '-' :: nat_to_chars i.natAbs else nat_to_chars i.toNat

/-- src/modules/ok.rs `OkModule::render`: fires only when the exit
code is exactly 0; empty format is the prompt symbol, `code` is "0",
anything else is a custom symbol. -/
def OkModule : Module where
  fs_markers := []
  render := fun format context =>
    .ok (if context.exit_code = some 0 then
      some (if format = [] then "❯".data
        else if format = "code".data then "0".data
        else format)
    else none)

/-- src/modules/fail.rs `FailModule::render`: a missing exit code
counts as 0; fires only on a non-zero code; empty or `full` format is
the prompt symbol, `code` is the decimal exit code, anything else is a
custom symbol. -/
def FailModule : Module where
  fs_markers := []
  render := fun format context =>
    let exit_code := context.exit_code.getD 0
    if exit_code = 0 then .ok none
    else .ok (some (
      if format = [] ∨ format = "full".data then "❯".data
      else if format = "code".data then int_to_chars exit_code
      else format))

/-- src/executor.rs `instantiate_module`, restricted to the pure
exit-code modules: the remaining ten known names (path, git, env,
rust, node, python, go, deno, bun, time) construct providers that
perform process or filesystem I/O and are outside this embedding, so
they are left uninstantiated; theorems over templates that mention
only `ok` and `fail` are unaffected, and unknown-module behavior is
proved for an arbitrary instantiation function. -/
def instantiate_module (name : List Char) : Option Module :=
  if name = "ok".data then some OkModule
  else if name = "fail".data then some FailModule
  else none

/-! ### Sequential and parallel rendering agree on success -/

theorem seq_ok_imp_par {registry : ModuleRegistry} {context : ModuleContext}
    {no_color : Bool} {template_len : Nat} :
    ∀ {tokens : List Token} {s : List Char},
    render_tokens_sequential registry context no_color template_len tokens = .ok s →
    render_tokens_parallel tokens registry context no_color = .ok s := by
  intro tokens
  induction tokens with
  | nil =>
    intro s h
    simp only [render_tokens_sequential, Except.ok.injEq] at h
    subst h
    rfl
  | cons t rest ih =>
    intro s h
    cases t with
    | text txt =>
      simp only [render_tokens_sequential] at h
      rcases hrec : render_tokens_sequential registry context no_color template_len rest
        with e | out <;> simp only [hrec] at h
      · exact absurd h (by simp)
      · simp only [Except.ok.injEq] at h
        subst h
        have hp := ih hrec
        unfold render_tokens_parallel at hp ⊢
        rcases hbs : build_slots registry rest with e | slots <;> simp only [hbs] at hp
        · exact absurd hp (by simp)
        · rcases hcs : compute_slots context no_color slots with e | vals <;>
            simp only [hcs] at hp
          · exact absurd hp (by simp)
          · simp only [Except.ok.injEq] at hp
            simp only [build_slots, hbs, compute_slots, compute_slot, hcs]
            simp [hp]
    | placeholder p =>
      simp only [render_tokens_sequential] at h
      rcases hget : registry.get p.module with _ | m <;> simp only [hget] at h
      · exact absurd h (by simp)
      · rcases hrp : render_placeholder m p context no_color with e | v <;>
          simp only [hrp] at h
        · exact absurd h (by simp)
        · rcases hrec : render_tokens_sequential registry context no_color template_len rest
            with e | out <;> simp only [hrec] at h
          · exact absurd h (by simp)
          · simp only [Except.ok.injEq] at h
            subst h
            have hp := ih hrec
            unfold render_tokens_parallel at hp ⊢
            rcases hbs : build_slots registry rest with e | slots <;> simp only [hbs] at hp
            · exact absurd hp (by simp)
            · rcases hcs : compute_slots context no_color slots with e | vals <;>
                simp only [hcs] at hp
              · exact absurd hp (by simp)
              · simp only [Except.ok.injEq] at hp
                simp only [build_slots, hget, hbs, compute_slots, compute_slot, hrp, hcs]
                simp [hp]

theorem par_ok_imp_seq {registry : ModuleRegistry} {context : ModuleContext}
    {no_color : Bool} {template_len : Nat} :
    ∀ {tokens : List Token} {s : List Char},
    render_tokens_parallel tokens registry context no_color = .ok s →
    render_tokens_sequential registry context no_color template_len tokens = .ok s := by
  intro tokens
  induction tokens with
  | nil =>
    intro s h
    unfold render_tokens_parallel at h
    simp only [build_slots, compute_slots, List.flatten_nil, Except.ok.injEq] at h
    subst h
    rfl
  | cons t rest ih =>
    intro s h
    unfold render_tokens_parallel at h
    cases t with
    | text txt =>
      simp only [build_slots] at h
      rcases hbs : build_slots registry rest with e | slots <;> simp only [hbs] at h
      · exact absurd h (by simp)
      · simp only [compute_slots, compute_slot] at h
        rcases hcs : compute_slots context no_color slots with e | vals <;>
          simp only [hcs] at h
        · exact absurd h (by simp)
        · have hpar : render_tokens_parallel rest registry context no_color =
              .ok vals.flatten := by
            unfold render_tokens_parallel
            simp [hbs, hcs]
          have hseq := ih hpar
          simp only [render_tokens_sequential, hseq]
          simp [← h]
    | placeholder p =>
      simp only [build_slots] at h
      rcases hget : registry.get p.module with _ | m <;> simp only [hget] at h
      · exact absurd h (by simp)
      · rcases hbs : build_slots registry rest with e | slots <;> simp only [hbs] at h
        · exact absurd h (by simp)
        · simp only [compute_slots, compute_slot] at h
          rcases hrp : render_placeholder m p context no_color with e | v <;>
            simp only [hrp] at h
          · exact absurd h (by simp)
          · rcases hcs : compute_slots context no_color slots with e | vals <;>
              simp only [hcs] at h
            · exact absurd h (by simp)
            · have hpar : render_tokens_parallel rest registry context no_color =
                  .ok vals.flatten := by
                unfold render_tokens_parallel
                simp [hbs, hcs]
              have hseq := ih hpar
              simp only [render_tokens_sequential, hget, hrp, hseq]
              simp [← h]

/-- C1: for every token sequence, registry and render context (the
providers in the model are deterministic functions), the sequential
strategy and the parallel slot strategy return byte-identical output
strings: one succeeds with output `s` exactly when the other does.
Output order is the slot (token) order, reconstructed from slot
position rather than worker completion time, which the model expresses
by each slot's value being a pure function of the slot alone. -/
theorem sequential_parallel_agree (tokens : List Token) (registry : ModuleRegistry)
    (context : ModuleContext) (no_color : Bool) (template_len : Nat) (s : List Char) :
    render_tokens_sequential registry context no_color template_len tokens = .ok s ↔
    render_tokens_parallel tokens registry context no_color = .ok s :=
  ⟨seq_ok_imp_par, par_ok_imp_seq⟩

/-- C1 (witness): a concrete two-placeholder template rendered both
ways. -/
theorem sequential_parallel_agree_witness :
    (render_tokens_sequential [("ok".data, OkModule), ("fail".data, FailModule)]
        ⟨false, some 0, fun _ => none, Shell.none⟩ false 12
        (parse "\x7bok:\x7d\x7bfail:\x7d".data) = .ok "❯".data ↔
      render_tokens_parallel (parse "\x7bok:\x7d\x7bfail:\x7d".data)
        [("ok".data, OkModule), ("fail".data, FailModule)]
        ⟨false, some 0, fun _ => none, Shell.none⟩ false = .ok "❯".data) ∧
    render_tokens_parallel (parse "\x7bok:\x7d\x7bfail:\x7d".data)
      [("ok".data, OkModule), ("fail".data, FailModule)]
      ⟨false, some 0, fun _ => none, Shell.none⟩ false = .ok "❯".data :=
  ⟨sequential_parallel_agree _ _ _ _ _ _, by decide⟩

/-! ### Per-placeholder rendering claims -/

/-- C2: for every placeholder whose module resolves and whose provider
call succeeds with result `r`, the per-placeholder renderer
contributes nothing exactly when the provider yields no value, or
yields an empty value while prefix and suffix are both empty;
otherwise it contributes the single segment prefix+value+suffix, and
when the style field is non-empty and styling is not disabled the
parsed style is applied to that whole segment (prefix and suffix
inside the styled region). -/
theorem render_placeholder_spec (m : Module) (p : Params) (context : ModuleContext)
    (no_color : Bool) (r : Option (List Char))
    (h : m.render p.format context = .ok r) :
    (render_placeholder m p context no_color = .ok none ↔
      (r = none ∨ (r = some [] ∧ p.prefix_ = [] ∧ p.suffix_ = []))) ∧
    (∀ text, r = some text → ¬(text = [] ∧ p.prefix_ = [] ∧ p.suffix_ = []) →
      ((p.style = [] ∨ no_color = true) →
        render_placeholder m p context no_color =
          .ok (some (p.prefix_ ++ text ++ p.suffix_))) ∧
      (p.style ≠ [] → no_color = false →
        ∀ style, AnsiStyle.parse p.style = .ok style →
          render_placeholder m p context no_color =
            .ok (some (style.apply_with_shell (p.prefix_ ++ text ++ p.suffix_)
              context.shell)))) := by
  constructor
  · rcases r with _ | text
    · simp [render_placeholder, h]
    · by_cases hz : text = [] ∧ p.prefix_ = [] ∧ p.suffix_ = []
      · obtain ⟨hz1, hz2, hz3⟩ := hz
        simp [render_placeholder, h, hz1, hz2, hz3]
      · simp only [render_placeholder, h, if_neg hz]
        by_cases hs : p.style = [] ∨ no_color = true
        · simp only [if_pos hs]
          constructor
          · intro hfalse
            exact absurd hfalse (by simp)
          · intro hr
            rcases hr with hr | ⟨hr, h2, h3⟩
            · exact absurd hr (by simp)
            · simp only [Option.some.injEq] at hr
              exact absurd ⟨hr, h2, h3⟩ hz
        · simp only [if_neg hs]
          rcases hap : AnsiStyle.parse p.style with e | st
          · constructor
            · intro hfalse
              exact absurd hfalse (by simp)
            · intro hr
              rcases hr with hr | ⟨hr, h2, h3⟩
              · exact absurd hr (by simp)
              · simp only [Option.some.injEq] at hr
                exact absurd ⟨hr, h2, h3⟩ hz
          · constructor
            · intro hfalse
              exact absurd hfalse (by simp)
            · intro hr
              rcases hr with hr | ⟨hr, h2, h3⟩
              · exact absurd hr (by simp)
              · simp only [Option.some.injEq] at hr
                exact absurd ⟨hr, h2, h3⟩ hz
  · intro text hr hz
    subst hr
    constructor
    · intro hsty
      simp only [render_placeholder, h, if_neg hz, if_pos hsty]
    · intro hne hnc style hap
      have hcond : ¬(p.style = [] ∨ no_color = true) := by
        subst hnc
        simp [hne]
      simp only [render_placeholder, h, if_neg hz, if_neg hcond, hap]

/-- C2 (witness): the `ok` module at exit code 0 with prefix `[`,
suffix `]` and style `red`; the whole bracketed segment sits inside
the red escape codes. -/
theorem render_placeholder_spec_witness :
    render_placeholder OkModule
      { module := "ok".data, style := "red".data, format := [],
        prefix_ := "[".data, suffix_ := "]".data }
      { no_version := false, exit_code := some 0, detection := fun _ => none,
        shell := Shell.none } false =
      .ok (some "\x1b[31m[❯]\x1b[0m".data) := by
  have h := (render_placeholder_spec OkModule
    { module := "ok".data, style := "red".data, format := [],
      prefix_ := "[".data, suffix_ := "]".data }
    { no_version := false, exit_code := some 0, detection := fun _ => none,
      shell := Shell.none } false (some "❯".data) (by decide)).2
    "❯".data rfl (by decide)
  have h2 := h.2 (by decide) rfl { color := some Color.red } (by decide)
  exact h2.trans (by decide)

/-- C7: when a placeholder contributes a segment (provider yielded a
value, not the silent-empty case) and its style field is non-empty
while styling is enabled, a style descriptor that fails to parse makes
the renderer return a StyleError carrying that placeholder's module
name and the underlying message; and when the style field is empty or
styling is disabled, a successful provider call always yields a
successful render, so no style error can occur. -/
theorem style_error_aborts :
    (∀ (m : Module) (p : Params) (context : ModuleContext) (text err : List Char),
      m.render p.format context = .ok (some text) →
      ¬(text = [] ∧ p.prefix_ = [] ∧ p.suffix_ = []) →
      p.style ≠ [] → AnsiStyle.parse p.style = .error err →
      render_placeholder m p context false =
        .error (PromptError.styleError p.module err)) ∧
    (∀ (m : Module) (p : Params) (context : ModuleContext) (no_color : Bool)
      (r : Option (List Char)),
      m.render p.format context = .ok r → (p.style = [] ∨ no_color = true) →
      ∃ v, render_placeholder m p context no_color = .ok v) := by
  constructor
  · intro m p context text err h hz hne hap
    have hcond : ¬(p.style = [] ∨ (false : Bool) = true) := by simp [hne]
    simp only [render_placeholder, h, if_neg hz, if_neg hcond, hap]
  · intro m p context no_color r h hs
    rcases r with _ | text
    · exact ⟨none, by simp [render_placeholder, h]⟩
    · by_cases hz : text = [] ∧ p.prefix_ = [] ∧ p.suffix_ = []
      · exact ⟨none, by simp only [render_placeholder, h, if_pos hz]⟩
      · exact ⟨some (p.prefix_ ++ text ++ p.suffix_),
          by simp only [render_placeholder, h, if_neg hz, if_pos hs]⟩

/-- C7 (witness): a bad style descriptor on a firing `ok` placeholder
aborts with a StyleError naming the module, while the same placeholder
with an empty style renders fine. -/
theorem style_error_aborts_witness :
    render_placeholder OkModule
      { module := "ok".data, style := "nope".data, format := [],
        prefix_ := [], suffix_ := [] }
      { no_version := false, exit_code := some 0, detection := fun _ => none,
        shell := Shell.none } false =
      .error (PromptError.styleError "ok".data
        "Unknown style component: nope".data) ∧
    ∃ v, render_placeholder OkModule
      { module := "ok".data, style := [], format := [],
        prefix_ := [], suffix_ := [] }
      { no_version := false, exit_code := some 0, detection := fun _ => none,
        shell := Shell.none } false = .ok v :=
  ⟨style_error_aborts.1 OkModule _ _ "❯".data _ (by decide) (by decide)
      (by decide) (by decide),
    style_error_aborts.2 OkModule _ _ false (some "❯".data) (by decide)
      (Or.inl rfl)⟩

/-! ### Unknown-module failure and concrete scenarios -/

/-- The first placeholder module name in token order that the
instantiation function cannot resolve. -/
def first_unknown (inst : List Char → Option Module) :
    List Token → Option (List Char)
  | [] => none
  | Token.text _ :: rest => first_unknown inst rest
  | Token.placeholder p :: rest =>
    match inst p.module with
    | none => some p.module
    | some _ => first_unknown inst rest

theorem first_unknown_mem (inst : List Char → Option Module) :
    ∀ (tokens : List Token) (mname : List Char),
    first_unknown inst tokens = some mname →
    inst mname = none ∧ ∃ p, Token.placeholder p ∈ tokens ∧ p.module = mname := by
  intro tokens
  induction tokens with
  | nil => intro mname h; simp [first_unknown] at h
  | cons t rest ih =>
    intro mname h
    cases t with
    | text txt =>
      simp only [first_unknown] at h
      obtain ⟨h1, p, hp, hpm⟩ := ih mname h
      exact ⟨h1, p, List.mem_cons_of_mem _ hp, hpm⟩
    | placeholder p =>
      simp only [first_unknown] at h
      rcases hin : inst p.module with _ | m <;> simp only [hin] at h
      · simp only [Option.some.injEq] at h
        subst h
        exact ⟨hin, p, List.mem_cons_self _ _, rfl⟩
      · obtain ⟨h1, q, hq, hqm⟩ := ih mname h
        exact ⟨h1, q, List.mem_cons_of_mem _ hq, hqm⟩

theorem build_registry_go_unknown (inst : List Char → Option Module) :
    ∀ (tokens : List Token) (registry : ModuleRegistry)
      (required : List (List Char)) (count : Nat) (mname : List Char),
    (∀ n ∈ required, inst n ≠ none) →
    first_unknown inst tokens = some mname →
    build_registry_go inst tokens registry required count =
      .error (PromptError.unknownModule mname) := by
  intro tokens
  induction tokens with
  | nil => intro reg req count mname hreq h; simp [first_unknown] at h
  | cons t rest ih =>
    intro reg req count mname hreq h
    cases t with
    | text txt =>
      simp only [first_unknown] at h
      simp only [build_registry_go]
      exact ih reg req count mname hreq h
    | placeholder p =>
      simp only [first_unknown] at h
      simp only [build_registry_go]
      by_cases hmem : p.module ∈ req
      · rw [if_pos hmem]
        rcases hin : inst p.module with _ | m
        · exact absurd hin (hreq _ hmem)
        · rw [hin] at h
          exact ih reg req (count + 1) mname hreq h
      · rw [if_neg hmem]
        rcases hin : inst p.module with _ | m <;> simp only [hin] at h ⊢
        · simp only [Option.some.injEq] at h
          subst h
          rfl
        · refine ih _ _ _ mname ?_ h
          intro n hn
          rcases List.mem_cons.mp hn with hn | hn
          · subst hn
            simp [hin]
          · exact hreq n hn

/-- C6: for every template whose parsed token sequence references an
unresolvable module (for any module instantiation function), the whole
render returns an unknown-module error naming the first such module,
regardless of the detection oracle, flags, shell and every provider's
render behavior — the error arises while building the registry,
before any provider render runs, and no output string is produced. -/
theorem unknown_module_aborts (inst : List Char → Option Module)
    (det : List (List Char) → DetectionContext) (gnc : Bool) (fmt : List Char)
    (nv : Bool) (ec : Option Int) (nc : Bool) (shell : Shell) (mname : List Char)
    (h : first_unknown inst (parse fmt) = some mname) :
    inst mname = none ∧
    (∃ p, Token.placeholder p ∈ parse fmt ∧ p.module = mname) ∧
    execute_with_shell inst det gnc fmt nv ec nc shell =
      .error (PromptError.unknownModule mname) := by
  obtain ⟨h1, h2⟩ := first_unknown_mem inst (parse fmt) mname h
  refine ⟨h1, h2, ?_⟩
  unfold execute_with_shell build_registry
  simp only [build_registry_go_unknown inst (parse fmt) [] [] 0 mname (by simp) h]

/-- C6 (witness): `\x7bnope\x7d` with the source's instantiation
table. -/
theorem unknown_module_aborts_witness :
    instantiate_module "nope".data = none ∧
    (∃ p, Token.placeholder p ∈ parse "\x7bnope\x7d".data ∧ p.module = "nope".data) ∧
    execute_with_shell instantiate_module (fun _ => fun _ => none) false
      "\x7bnope\x7d".data false none false Shell.none =
      .error (PromptError.unknownModule "nope".data) :=
  unknown_module_aborts instantiate_module (fun _ => fun _ => none) false
    "\x7bnope\x7d".data false none false Shell.none "nope".data (by decide)

/-- C9: `\x7bok:\x7d\x7bfail:\x7d` with exit code 1 renders to exactly
`❯` (only the fail indicator fires, the ok module contributes
nothing), and `\x7bfail::code\x7d` with exit code 42 renders to
exactly `42`; each checked both with color enabled under Shell.none
and with color disabled under Shell.bash (the styles are empty, so the
flags cannot influence the output). -/
theorem exit_code_scenarios :
    (execute_with_shell instantiate_module (fun _ => fun _ => none) false
      "\x7bok:\x7d\x7bfail:\x7d".data false (some 1) false Shell.none =
      .ok "❯".data) ∧
    (execute_with_shell instantiate_module (fun _ => fun _ => none) true
      "\x7bok:\x7d\x7bfail:\x7d".data true (some 1) true Shell.bash =
      .ok "❯".data) ∧
    (execute_with_shell instantiate_module (fun _ => fun _ => none) false
      "\x7bfail::code\x7d".data false (some 42) false Shell.none =
      .ok "42".data) ∧
    (execute_with_shell instantiate_module (fun _ => fun _ => none) true
      "\x7bfail::code\x7d".data true (some 42) true Shell.bash =
      .ok "42".data) :=
  ⟨by decide, by decide, by decide, by decide⟩

/-- C10: with no exit code in the context, the ok module yields no
value (it fires only on exit code exactly 0) and the fail module
yields no value (a missing exit code counts as 0), so
`\x7bok:\x7d\x7bfail:\x7d` renders to the empty string. -/
theorem no_exit_code_renders_empty :
    (∀ (format : List Char) (context : ModuleContext), context.exit_code = none →
      OkModule.render format context = .ok none) ∧
    (∀ (format : List Char) (context : ModuleContext), context.exit_code = none →
      FailModule.render format context = .ok none) ∧
    execute_with_shell instantiate_module (fun _ => fun _ => none) false
      "\x7bok:\x7d\x7bfail:\x7d".data false none false Shell.none = .ok [] := by
  refine ⟨?_, ?_, by decide⟩
  · intro format context h
    simp [OkModule, h]
  · intro format context h
    simp [FailModule, h]

/-- C10 (witness): both modules at a concrete context without an exit
code. -/
theorem no_exit_code_renders_empty_witness :
    OkModule.render []
      { no_version := false, exit_code := none, detection := fun _ => none,
        shell := Shell.none } = .ok none ∧
    FailModule.render []
      { no_version := false, exit_code := none, detection := fun _ => none,
        shell := Shell.none } = .ok none :=
  ⟨no_exit_code_renders_empty.1 [] _ rfl, no_exit_code_renders_empty.2.1 [] _ rfl⟩

end Prmt
